import Mathlib

/-
Verification development for the core analysis pipeline of the
Time-Series-Insight-Assistant repository.

The embedding translates the pure control-flow and arithmetic of the Python
sources into Lean over exact rationals:

* series values are `List ℚ` (a loaded series is NaN-free by the cleaning
  invariant, so a plain list of finite rational values);
* the statistical routines from statsmodels/scipy (adfuller, kpss, acf, pacf,
  ARIMA maximum-likelihood fitting, normality tests) are numerical black boxes;
  they enter the model as oracle parameters (a `Bool`-valued test verdict, an
  evaluation outcome per candidate order) while every decision made by the
  repository code itself on top of those outputs is embedded faithfully.
-/

namespace TimeSeriesInsight

/-! ### core/data_processor.py -/

-- `TimeSeriesProcessor.difference`: one pass of `Series.diff().dropna()`,
-- i.e. x[i+1] - x[i] with the leading undefined value dropped.
def diff1 (xs : List ℚ) : List ℚ :=
  List.zipWith (fun a b => a - b) xs.tail xs

-- one pass of `Series.diff(periods=12).dropna()` (seasonal period fixed at 12
-- in the source).
def seasonalDiff (xs : List ℚ) : List ℚ :=
  List.zipWith (fun a b => a - b) (xs.drop 12) xs

-- `TimeSeriesProcessor.difference(order, seasonal_order)`: seasonal passes
-- first, then ordinary passes, exactly as the two loops in the source.
def difference (data : List ℚ) (order : ℕ) (seasonalOrder : ℕ) : List ℚ :=
  diff1^[order] (seasonalDiff^[seasonalOrder] data)

-- pandas `Series.cumsum` (used by the spec's reconstruction property).
def cumsumFrom (acc : ℚ) : List ℚ → List ℚ
  | [] => []
  | x :: xs => (acc + x) :: cumsumFrom (acc + x) xs

def cumsum (xs : List ℚ) : List ℚ := cumsumFrom 0 xs

-- `check_stationarity(method='both')`, combination step (lines 155-183).
-- The two booleans are the `is_stationary` verdicts of the ADF and KPSS
-- tests computed upstream by statsmodels.
structure OverallResult where
  isStationary : Bool
  interpretation : String
deriving DecidableEq

def combineStationarity (adfStationary kpssStationary : Bool) : OverallResult :=
  if adfStationary && kpssStationary then
    ⟨true, ("综合判断：平稳")⟩
  else if !adfStationary && !kpssStationary then
    ⟨false, ("综合判断：非平稳")⟩
  else
    ⟨false, ("综合判断：结果不一致，建议进一步分析")⟩

-- `TimeSeriesProcessor.auto_difference` (lines 215-261).  The loop
-- `for order in range(1, max_order+1)` differences cumulatively and breaks as
-- soon as the ADF test on the differenced data reports a p-value below alpha;
-- `adf` is the oracle for that per-series verdict (an adfuller exception,
-- swallowed by `except: continue`, behaves like a `false` verdict).
def autoDiffLoop (adf : List ℚ → Bool) : List ℚ → ℕ → ℕ → Option (List ℚ × ℕ)
  | _, _, 0 => none
  | cur, k, fuel + 1 =>
    let next := diff1 cur
    if adf next then some (next, k + 1)
    else autoDiffLoop adf next (k + 1) fuel

-- `overallStationary` is the verdict of `check_stationarity` on the original
-- data; on loop exhaustion (`diff_order == 0`) the source falls back to the
-- order-1 difference of the original data.
def autoDifference (overallStationary : Bool) (adf : List ℚ → Bool)
    (data : List ℚ) (maxOrder : ℕ) : List ℚ × ℕ :=
  if overallStationary then (data, 0)
  else
    match autoDiffLoop adf data 0 maxOrder with
    | some r => r
    | none => (diff1 data, 1)

/-! ### helper lemmas for differencing -/

lemma diff1_length (xs : List ℚ) : (diff1 xs).length = xs.length - 1 := by
  simp [diff1, List.length_zipWith, List.length_tail]

lemma cumsumFrom_zipWith_sub (t : List ℚ) :
    ∀ a : ℚ, cumsumFrom a (List.zipWith (fun x y => x - y) t (a :: t)) = t := by
  induction t with
  | nil => intro a; rfl
  | cons y t ih =>
    intro a
    show (a + (y - a)) :: cumsumFrom (a + (y - a))
        (List.zipWith (fun x y => x - y) t (y :: t)) = y :: t
    have ha : a + (y - a) = y := by ring
    rw [ha, ih y]

/-- Claim C3: for any series of length at least 2, the first ordinary
difference (order 1, seasonal order 0) has length one less than the input,
and prefixing the input's first value to it and taking cumulative sums
reconstructs the input exactly (the embedding is purely functional, so the
input list is untouched by construction). -/
theorem difference_cumsum_inverse (xs : List ℚ) (h : 2 ≤ xs.length) :
    (difference xs 1 0).length + 1 = xs.length ∧
    cumsum (xs.headD 0 :: difference xs 1 0) = xs := by
  match xs, h with
  | x :: t, _ =>
    have hdiff : difference (x :: t) 1 0 = diff1 (x :: t) := by
      simp [difference]
    refine ⟨?_, ?_⟩
    · rw [hdiff, diff1_length]
      simp only [List.length_cons] at h ⊢
      omega
    · rw [hdiff]
      show cumsum (x :: diff1 (x :: t)) = x :: t
      have : diff1 (x :: t) = List.zipWith (fun a b => a - b) t (x :: t) := rfl
      rw [this]
      show (0 + x) :: cumsumFrom (0 + x) (List.zipWith (fun a b => a - b) t (x :: t))
          = x :: t
      rw [zero_add, cumsumFrom_zipWith_sub t x]

/-- Witness for C3 at the concrete series [3, 1, 4]. -/
theorem difference_cumsum_inverse_witness :
    (difference [3, 1, 4] 1 0).length + 1 = ([3, 1, 4] : List ℚ).length ∧
    cumsum (([3, 1, 4] : List ℚ).headD 0 :: difference [3, 1, 4] 1 0) = [3, 1, 4] :=
  difference_cumsum_inverse [3, 1, 4] (by simp)

/-- Claim C2: the combined stationarity verdict of `check_stationarity` with
method 'both' is the conjunction of the ADF and KPSS verdicts, and on
disagreement it is `false` with the inconclusive interpretation. -/
theorem stationarity_combination :
    (∀ a k : Bool, (combineStationarity a k).isStationary = (a && k)) ∧
    (∀ a k : Bool, a ≠ k →
      (combineStationarity a k).isStationary = false ∧
      (combineStationarity a k).interpretation = "综合判断：结果不一致，建议进一步分析") := by
  constructor
  · intro a k; cases a <;> cases k <;> rfl
  · intro a k h
    cases a <;> cases k <;> first
      | exact absurd rfl h
      | exact ⟨rfl, rfl⟩

/-- Witness for C2 on the disagreeing pair (true, false). -/
theorem stationarity_combination_witness :
    (combineStationarity true false).isStationary = false ∧
    (combineStationarity true false).interpretation = "综合判断：结果不一致，建议进一步分析" :=
  stationarity_combination.2 true false (by decide)

/-! ### auto_difference lemmas (C1) -/

lemma autoDiffLoop_some (adf : List ℚ → Bool) :
    ∀ (fuel k : ℕ) (cur out : List ℚ) (j : ℕ),
      autoDiffLoop adf cur k fuel = some (out, j) →
      k < j ∧ j ≤ k + fuel ∧ out = diff1^[j - k] cur ∧ adf out = true := by
  intro fuel
  induction fuel with
  | zero => intro k cur out j h; exact absurd h (by simp [autoDiffLoop])
  | succ fuel ih =>
    intro k cur out j h
    rw [autoDiffLoop] at h
    by_cases hb : adf (diff1 cur) = true
    · rw [if_pos hb] at h
      obtain ⟨hout, hj⟩ : diff1 cur = out ∧ k + 1 = j := by
        simpa using h
      subst hout; subst hj
      refine ⟨by omega, by omega, ?_, hb⟩
      have : k + 1 - k = 1 := by omega
      rw [this, Function.iterate_one]
    · rw [if_neg hb] at h
      obtain ⟨h1, h2, h3, h4⟩ := ih (k + 1) (diff1 cur) out j h
      refine ⟨by omega, by omega, ?_, h4⟩
      have hsub : j - k = (j - (k + 1)) + 1 := by omega
      rw [hsub, Function.iterate_succ_apply, h3]

lemma autoDiffLoop_none (adf : List ℚ → Bool) :
    ∀ (fuel k : ℕ) (cur : List ℚ),
      autoDiffLoop adf cur k fuel = none →
      ∀ i, 1 ≤ i → i ≤ fuel → adf (diff1^[i] cur) = false := by
  intro fuel
  induction fuel with
  | zero => intro k cur _ i h1 h2; omega
  | succ fuel ih =>
    intro k cur h i h1 h2
    rw [autoDiffLoop] at h
    by_cases hb : adf (diff1 cur) = true
    · rw [if_pos hb] at h; exact absurd h (by simp)
    · rw [if_neg hb] at h
      rcases Nat.eq_or_lt_of_le h1 with h1' | h1'


      · rw [← h1', Function.iterate_one]
        exact Bool.eq_false_iff.mpr hb
      · have hsub : i = (i - 1) + 1 := by omega
        rw [hsub, Function.iterate_succ_apply]
        exact ih (k + 1) (diff1 cur) h (i - 1) (by omega) (by omega)

lemma autoDiffLoop_eq_none (adf : List ℚ → Bool) :
    ∀ (fuel k : ℕ) (cur : List ℚ),
      (∀ i, 1 ≤ i → i ≤ fuel → adf (diff1^[i] cur) = false) →
      autoDiffLoop adf cur k fuel = none := by
  intro fuel
  induction fuel with
  | zero => intro k cur _; rfl
  | succ fuel ih =>
    intro k cur h
    rw [autoDiffLoop]
    have h1 : adf (diff1 cur) = false := by
      have := h 1 le_rfl (by omega)
      rwa [Function.iterate_one] at this
    rw [if_neg (by simp [h1])]
    refine ih (k + 1) (diff1 cur) (fun i hi1 hi2 => ?_)
    have := h (i + 1) (by omega) (by omega)
    rwa [Function.iterate_succ_apply] at this

/-- Claim C1 (amended): `auto_difference` returns the input differenced
exactly `order` times where `0 ≤ order ≤ max(max_order, 1)`; if the combined
test already judges the series stationary it returns the original series with
order 0, and if the loop exhausts `max_order` without the unit-root oracle
reporting stationarity it falls back to the order-1 difference with order 1
(so for `max_order = 0` the returned order is 1, exceeding `max_order`). -/
theorem auto_difference_order_bounds (st : Bool) (adf : List ℚ → Bool)
    (data : List ℚ) (maxOrder : ℕ) :
    (autoDifference st adf data maxOrder).2 ≤ max maxOrder 1 ∧
    (autoDifference st adf data maxOrder).1 =
      diff1^[(autoDifference st adf data maxOrder).2] data ∧
    (st = true → autoDifference st adf data maxOrder = (data, 0)) ∧
    (st = false → (∀ i, 1 ≤ i → i ≤ maxOrder → adf (diff1^[i] data) = false) →
      autoDifference st adf data maxOrder = (diff1 data, 1)) := by
  cases st with
  | true =>
    refine ⟨by simp [autoDifference], by simp [autoDifference], fun _ => by
      simp [autoDifference], fun h => absurd h (by simp)⟩
  | false =>
    rw [autoDifference, if_neg (by simp)]
    rcases hm : autoDiffLoop adf data 0 maxOrder with _ | ⟨out, j⟩
    · refine ⟨by simp, ?_, fun h => absurd h (by simp), fun _ _ => rfl⟩
      show diff1 data = diff1^[1] data
      rw [Function.iterate_one]
    · obtain ⟨h1, h2, h3, h4⟩ := autoDiffLoop_some adf maxOrder 0 data out j hm
      refine ⟨by simp; omega, ?_, fun h => absurd h (by simp), fun _ hall => ?_⟩
      · show out = diff1^[j] data
        simpa using h3
      · have : autoDiffLoop adf data 0 maxOrder = none :=
          autoDiffLoop_eq_none adf maxOrder 0 data hall
        rw [hm] at this
        exact absurd this (by simp)

/-- Witness for C1's amended theorem: with a never-stationary oracle and
`max_order = 0`, the exhaustion fallback fires and yields order 1. -/
theorem auto_difference_order_bounds_witness :
    autoDifference false (fun _ => false) ([1, 2, 3] : List ℚ) 0 =
      (diff1 [1, 2, 3], 1) :=
  (auto_difference_order_bounds false (fun _ => false) [1, 2, 3] 0).2.2.2 rfl
    (fun i h1 h2 => absurd (h1.trans h2) (by omega))

/-- Counterexample to C1 as stated: with `max_order = 0` and a series judged
non-stationary, the returned differencing order is 1, violating the claimed
bound `order ≤ max_order`. -/
theorem auto_difference_exceeds_max_order :
    ¬ ((autoDifference false (fun _ => false) ([1, 2, 3] : List ℚ) 0).2 ≤ 0) := by
  decide

/-! ### analysis/model_identifier.py -/

-- pattern_type strings of `_identify_cutoff_pattern`: 白噪声 / 截尾 / 拖尾.
inductive Pattern where
  | whiteNoise
  | cutoff
  | tailOff
deriving DecidableEq

structure CutoffResult where
  patternType : Pattern
  cutoffLag : ℕ
  lastSignificantLag : ℕ
  significantLags : List ℕ
  maxSignificantValue : ℚ
deriving DecidableEq

-- the `for i in range(len(significant)): if significant[i]: last_significant = i`
-- scan, returning `none` for the sentinel -1.
def lastTrueIdxAux : List Bool → ℕ → Option ℕ → Option ℕ
  | [], _, acc => acc
  | b :: bs, i, acc => lastTrueIdxAux bs (i + 1) (if b then some i else acc)

def lastTrueIdx (l : List Bool) : Option ℕ := lastTrueIdxAux l 0 none

-- `np.where(significant)[0]`: indices holding `true`.
def trueIndices (l : List Bool) : List ℕ :=
  (List.range l.length).filter fun i => l.getD i false

-- slope of `np.polyfit(range(m), ys, 1)`: the degree-1 least-squares
-- coefficient (m Σxy − Σx Σy) / (m Σx² − (Σx)²), exact in ℚ.
def polyfitSlope (ys : List ℚ) : ℚ :=
  let m : ℚ := ys.length
  let xs : List ℚ := (List.range ys.length).map (fun i => (i : ℚ))
  let sx := xs.sum
  let sy := ys.sum
  let sxy := (List.zipWith (fun x y => x * y) xs ys).sum
  let sxx := (xs.map (fun x => x * x)).sum
  (m * sxy - sx * sy) / (m * sxx - sx * sx)

-- `ModelIdentifier._identify_cutoff_pattern` (lines 60-129).  `values` are
-- the ACF/PACF values; `significant` is the per-lag significance vector
-- computed upstream from the confidence bands (or the 1.96/sqrt(n)
-- threshold); lag 0 is discarded by both `[1:]` slices.
def identifyCutoffPattern (values : List ℚ) (significant : List Bool) : CutoffResult :=
  let sig := significant.drop 1
  let valuesNoZero := values.drop 1
  let sigLags := (trueIndices sig).map (· + 1)
  let maxSigVal :=
    ((List.zipWith (fun v b => (v, b)) valuesNoZero sig).filterMap
      (fun p => if p.2 then some |p.1| else none)).foldr max 0
  match lastTrueIdx sig with
  | none => ⟨Pattern.whiteNoise, 0, 0, sigLags, maxSigVal⟩
  | some lastSig =>
    let pat :=
      if lastSig < 3 then Pattern.cutoff
      else if 5 ≤ lastSig then
        let recent :=
          ((valuesNoZero.drop (lastSig - 3)).take (lastSig + 1 - (lastSig - 3))).map
            (fun v => |v|)
        if 1 < recent.length then
          if polyfitSlope recent < -(1 / 100) then Pattern.tailOff else Pattern.cutoff
        else Pattern.cutoff
      else Pattern.cutoff
    ⟨pat, lastSig + 1, lastSig + 1, sigLags, maxSigVal⟩

lemma lastTrueIdxAux_all_false :
    ∀ (l : List Bool) (i : ℕ) (acc : Option ℕ),
      (∀ b ∈ l, b = false) → lastTrueIdxAux l i acc = acc := by
  intro l
  induction l with
  | nil => intro i acc _; rfl
  | cons b bs ih =>
    intro i acc h
    have hb : b = false := h b (by simp)
    rw [lastTrueIdxAux, hb]
    exact ih (i + 1) acc (fun x hx => h x (by simp [hx]))

lemma lastTrueIdx_all_false (l : List Bool) (h : ∀ b ∈ l, b = false) :
    lastTrueIdx l = none :=
  lastTrueIdxAux_all_false l 0 none h

lemma lastTrueIdx_true_head (rest : List Bool) (h : ∀ b ∈ rest, b = false) :
    lastTrueIdx (true :: rest) = some 0 := by
  rw [lastTrueIdx, lastTrueIdxAux, if_pos rfl]
  exact lastTrueIdxAux_all_false rest 1 (some 0) h

/-- Claim C7: the cutoff-pattern heuristic ignores the lag-0 entry of the
significance vector; a profile with no significant lag beyond lag 0 is
classified white-noise with cutoff lag 0, and a profile whose only
significant lag is lag 1 is classified cutoff with cutoff lag 1. -/
theorem cutoff_pattern_spec (values : List ℚ) (b : Bool) (rest : List Bool) :
    (identifyCutoffPattern values (b :: rest) =
      identifyCutoffPattern values (false :: rest)) ∧
    ((∀ x ∈ rest, x = false) →
      (identifyCutoffPattern values (b :: rest)).patternType = Pattern.whiteNoise ∧
      (identifyCutoffPattern values (b :: rest)).cutoffLag = 0) ∧
    (∀ rest', rest = true :: rest' → (∀ x ∈ rest', x = false) →
      (identifyCutoffPattern values (b :: rest)).patternType = Pattern.cutoff ∧
      (identifyCutoffPattern values (b :: rest)).cutoffLag = 1) := by
  refine ⟨rfl, fun h => ?_, fun rest' hrest h => ?_⟩
  · rw [identifyCutoffPattern]
    have hdrop : (b :: rest).drop 1 = rest := rfl
    rw [hdrop, lastTrueIdx_all_false rest h]
    exact ⟨rfl, rfl⟩
  · subst hrest
    rw [identifyCutoffPattern]
    have hdrop : (b :: true :: rest').drop 1 = true :: rest' := rfl
    rw [hdrop, lastTrueIdx_true_head rest' h]
    exact ⟨rfl, rfl⟩

/-- Witness for C7: the profile significant only at lag 1 classifies as a
cutoff at lag 1. -/
theorem cutoff_pattern_spec_witness :
    (identifyCutoffPattern [] [false, true]).patternType = Pattern.cutoff ∧
    (identifyCutoffPattern [] [false, true]).cutoffLag = 1 :=
  (cutoff_pattern_spec [] false [true]).2.2 [] rfl (by simp)

/-! ### identify_arima_order (lines 131-237) -/

abbrev ModelOrder := ℕ × ℕ × ℕ

structure Candidate where
  order : ModelOrder
  modelType : String
  reasoning : String
  confidence : ℚ
deriving DecidableEq

-- the four mutually exclusive Box-Jenkins branches (steps 1-4 of the source).
def branchModels (acfPat pacfPat : CutoffResult) (maxP maxQ d : ℕ) : List Candidate :=
  if acfPat.patternType = Pattern.cutoff ∧ pacfPat.patternType = Pattern.tailOff then
    let q := min acfPat.cutoffLag maxQ
    if 0 < q then
      [⟨(0, d, q), ("MA(") ++ toString q ++ (")"),
        ("ACF在滞后") ++ toString q ++ ("处截尾，PACF拖尾"), 8 / 10⟩]
    else []
  else if pacfPat.patternType = Pattern.cutoff ∧ acfPat.patternType = Pattern.tailOff then
    let p := min pacfPat.cutoffLag maxP
    if 0 < p then
      [⟨(p, d, 0), ("AR(") ++ toString p ++ (")"),
        ("PACF在滞后") ++ toString p ++ ("处截尾，ACF拖尾"), 8 / 10⟩]
    else []
  else if acfPat.patternType = Pattern.tailOff ∧ pacfPat.patternType = Pattern.tailOff then
    (List.range' 1 (min 3 maxP)).flatMap fun p =>
      (List.range' 1 (min 3 maxQ)).map fun q =>
        ⟨(p, d, q), ("ARMA(") ++ toString p ++ (",") ++ toString q ++ (")"),
          ("ACF和PACF都呈拖尾模式"), 6 / 10⟩
  else
    (if pacfPat.significantLags ≠ [] then
      let p := min (pacfPat.significantLags.foldr max 0) maxP
      [⟨(p, d, 0), ("AR(") ++ toString p ++ (")"), ("基于PACF显著滞后推荐"), 5 / 10⟩]
    else []) ++
    (if acfPat.significantLags ≠ [] then
      let q := min (acfPat.significantLags.foldr max 0) maxQ
      [⟨(0, d, q), ("MA(") ++ toString q ++ (")"), ("基于ACF显著滞后推荐"), 5 / 10⟩]
    else [])

-- the fixed backstop set of common low-order models (step 5).
def commonOrders (d : ℕ) : List ModelOrder :=
  [(1, d, 0), (0, d, 1), (1, d, 1), (2, d, 0), (0, d, 2), (2, d, 1), (1, d, 2)]

def backstopCandidate (o : ModelOrder) : Candidate :=
  ⟨o, ("ARIMA") ++ toString o, ("常用低阶模型"), 3 / 10⟩

-- `for order in common_models: if order not in [m["order"] for m in models]:
--    models.append(...)` — the membership test runs against the growing list.
def addBackstop (models : List Candidate) (orders : List ModelOrder) : List Candidate :=
  orders.foldl
    (fun ms o => if o ∈ ms.map Candidate.order then ms else ms ++ [backstopCandidate o])
    models

-- `models.sort(key=lambda x: x["confidence"], reverse=True)`: a stable sort by
-- descending confidence; insertion sort with this total preorder is stable,
-- matching Python's sort.
def confGE (a b : Candidate) : Prop := b.confidence ≤ a.confidence

instance : DecidableRel confGE :=
  fun a b => inferInstanceAs (Decidable (b.confidence ≤ a.confidence))

instance : IsTotal Candidate confGE :=
  ⟨fun a b => le_total b.confidence a.confidence⟩

instance : IsTrans Candidate confGE :=
  ⟨fun _ _ _ h1 h2 => le_trans h2 h1⟩

-- `ModelIdentifier.identify_arima_order` before the final `[:10]` truncation.
-- The ACF/PACF values and per-lag significance vectors are the upstream
-- statistical inputs; everything after them is the source's own logic.
def identifyArimaOrderFull (acfValues pacfValues : List ℚ)
    (acfSig pacfSig : List Bool) (maxP maxQ d : ℕ) : List Candidate :=
  let acfPat := identifyCutoffPattern acfValues acfSig
  let pacfPat := identifyCutoffPattern pacfValues pacfSig
  List.insertionSort confGE
    (addBackstop (branchModels acfPat pacfPat maxP maxQ d) (commonOrders d))

-- the returned recommendation list (`models[:10]`).
def identifyArimaOrder (acfValues pacfValues : List ℚ)
    (acfSig pacfSig : List Bool) (maxP maxQ d : ℕ) : List Candidate :=
  (identifyArimaOrderFull acfValues pacfValues acfSig pacfSig maxP maxQ d).take 10

/-! ### lemmas about the backstop fold and the branch list -/

lemma addBackstop_cons (ms : List Candidate) (o : ModelOrder) (os : List ModelOrder) :
    addBackstop ms (o :: os) =
      addBackstop
        (if o ∈ ms.map Candidate.order then ms else ms ++ [backstopCandidate o]) os := rfl

lemma addBackstop_mono (o : ModelOrder) :
    ∀ (os : List ModelOrder) (ms : List Candidate),
      o ∈ ms.map Candidate.order → o ∈ (addBackstop ms os).map Candidate.order := by
  intro os
  induction os with
  | nil => intro ms h; exact h
  | cons o' os ih =>
    intro ms h
    rw [addBackstop_cons]
    apply ih
    split
    · exact h
    · simp only [List.map_append, List.mem_append]
      exact Or.inl h

lemma addBackstop_mem_of_mem (o : ModelOrder) :
    ∀ (os : List ModelOrder) (ms : List Candidate),
      o ∈ os → o ∈ (addBackstop ms os).map Candidate.order := by
  intro os
  induction os with
  | nil => intro ms h; exact absurd h (by simp)
  | cons o' os ih =>
    intro ms h
    rw [addBackstop_cons]
    rcases List.mem_cons.mp h with h' | h'
    · subst h'
      apply addBackstop_mono
      split
      · assumption
      · simp [backstopCandidate]
    · exact ih _ h'

lemma addBackstop_subset :
    ∀ (os : List ModelOrder) (ms : List Candidate) (c : Candidate),
      c ∈ addBackstop ms os → c ∈ ms ∨ c.confidence = 3 / 10 := by
  intro os
  induction os with
  | nil => intro ms c h; exact Or.inl h
  | cons o' os ih =>
    intro ms c h
    rw [addBackstop_cons] at h
    rcases ih _ c h with h' | h'
    · revert h'
      split
      · exact Or.inl
      · intro h'
        rcases List.mem_append.mp h' with h'' | h''
        · exact Or.inl h''
        · right
          have hco : c = backstopCandidate o' := by simpa using h''
          rw [hco]
          rfl
    · exact Or.inr h'

lemma addBackstop_nodup :
    ∀ (os : List ModelOrder) (ms : List Candidate),
      (ms.map Candidate.order).Nodup → ((addBackstop ms os).map Candidate.order).Nodup := by
  intro os
  induction os with
  | nil => intro ms h; exact h
  | cons o' os ih =>
    intro ms h
    rw [addBackstop_cons]
    apply ih
    split
    · exact h
    · rename_i hnot
      simp only [List.map_append, List.nodup_append]
      refine ⟨h, by simp, ?_⟩
      intro x hx
      simp only [backstopCandidate, List.map_cons, List.map_nil, List.mem_cons,
        List.not_mem_nil, or_false]
      intro hx'
      exact hnot (hx' ▸ hx)

lemma one_le_foldr_max (l : List ℕ) (hne : l ≠ []) (h : ∀ x ∈ l, 1 ≤ x) :
    1 ≤ l.foldr max 0 := by
  match l, hne with
  | x :: t, _ =>
    have : x ≤ (x :: t).foldr max 0 := le_max_left x _
    exact le_trans (h x (by simp)) this

lemma significantLags_ge_one (values : List ℚ) (sig : List Bool) :
    ∀ x ∈ (identifyCutoffPattern values sig).significantLags, 1 ≤ x := by
  intro x hx
  have : (identifyCutoffPattern values sig).significantLags =
      (trueIndices (sig.drop 1)).map (· + 1) := by
    rw [identifyCutoffPattern]
    rcases lastTrueIdx (sig.drop 1) with _ | i <;> rfl
  rw [this] at hx
  obtain ⟨i, _, hi⟩ := List.mem_map.mp hx
  omega

lemma grid_nodup (a b d : ℕ) (f : ℕ → ℕ → Candidate)
    (hf : ∀ p q, (f p q).order = (p, d, q)) :
    (((List.range' 1 a).flatMap fun p => (List.range' 1 b).map fun q => f p q).map
      Candidate.order).Nodup := by
  rw [List.map_flatMap, List.nodup_flatMap]
  constructor
  · intro p _
    rw [List.map_map]
    refine List.Nodup.map ?_ (List.nodup_range' 1 b)
    intro q q' hqq
    have h1 : (f p q).order = (f p q').order := hqq
    rw [hf, hf] at h1
    have := congrArg (fun o : ModelOrder => o.2.2) h1
    simpa using this
  · refine List.Pairwise.imp ?_ (List.nodup_range' 1 a)
    intro p p' hne x hx hx'
    simp only [List.map_map, List.mem_map, Function.comp] at hx hx'
    obtain ⟨q, _, hq⟩ := hx
    obtain ⟨q', _, hq'⟩ := hx'
    rw [hf] at hq
    rw [hf] at hq'
    apply hne
    have heq : ((p, d, q) : ModelOrder) = (p', d, q') := by rw [hq, hq']
    exact congrArg Prod.fst heq

lemma branchModels_orders_nodup (acfPat pacfPat : CutoffResult) (maxP maxQ d : ℕ)
    (hA : ∀ x ∈ acfPat.significantLags, 1 ≤ x)
    (hB : ∀ x ∈ pacfPat.significantLags, 1 ≤ x)
    (hP : 1 ≤ maxP) (hQ : 1 ≤ maxQ) :
    ((branchModels acfPat pacfPat maxP maxQ d).map Candidate.order).Nodup := by
  rw [branchModels]
  split_ifs with h1 h2 h3 h4 h5 h6
  · dsimp only
    split <;> simp
  · dsimp only
    split <;> simp
  · exact grid_nodup (min 3 maxP) (min 3 maxQ) d
      (fun p q =>
        ⟨(p, d, q), ("ARMA(") ++ toString p ++ (",") ++ toString q ++ (")"),
          ("ACF和PACF都呈拖尾模式"), 6 / 10⟩)
      (fun p q => rfl)
  · -- both significant-lag lists nonempty: (p,d,0) vs (0,d,q) with p ≥ 1
    have hp1 : 1 ≤ min (pacfPat.significantLags.foldr max 0) maxP :=
      le_min (one_le_foldr_max _ h4 hB) hP
    simp only [List.map_append, List.map_cons, List.map_nil, List.singleton_append]
    refine List.nodup_cons.mpr ⟨?_, List.nodup_singleton _⟩
    simp only [List.mem_singleton]
    intro hcontra
    have h0 : pacfPat.significantLags.foldr max 0 ⊓ maxP = 0 :=
      congrArg Prod.fst hcontra
    omega
  · simp
  · simp
  · simp

lemma identifyArimaOrderFull_orders_nodup (acfValues pacfValues : List ℚ)
    (acfSig pacfSig : List Bool) (maxP maxQ d : ℕ)
    (hP : 1 ≤ maxP) (hQ : 1 ≤ maxQ) :
    List.Pairwise (fun a b : Candidate => a.order ≠ b.order)
      (identifyArimaOrderFull acfValues pacfValues acfSig pacfSig maxP maxQ d) := by
  have hpre : ((addBackstop
      (branchModels (identifyCutoffPattern acfValues acfSig)
        (identifyCutoffPattern pacfValues pacfSig) maxP maxQ d)
      (commonOrders d)).map Candidate.order).Nodup :=
    addBackstop_nodup _ _
      (branchModels_orders_nodup _ _ maxP maxQ d
        (significantLags_ge_one acfValues acfSig)
        (significantLags_ge_one pacfValues pacfSig) hP hQ)
  have hpw : List.Pairwise (fun a b : Candidate => a.order ≠ b.order)
      (addBackstop
        (branchModels (identifyCutoffPattern acfValues acfSig)
          (identifyCutoffPattern pacfValues pacfSig) maxP maxQ d)
        (commonOrders d)) :=
    List.pairwise_map.mp hpre
  exact ((List.perm_insertionSort confGE _).pairwise_iff
    (fun h => Ne.symm h)).mpr hpw

/-- Claim C10: the recommendation list returned by `identify_arima_order`
contains pairwise-distinct (p,d,q) orders, for any pattern inputs and any
max_p, max_q ≥ 1: the pattern branches never duplicate an order and each
backstop model is appended only when its order is absent. -/
theorem identify_orders_distinct (acfValues pacfValues : List ℚ)
    (acfSig pacfSig : List Bool) (maxP maxQ d : ℕ)
    (hP : 1 ≤ maxP) (hQ : 1 ≤ maxQ) :
    List.Pairwise (fun a b : Candidate => a.order ≠ b.order)
      (identifyArimaOrder acfValues pacfValues acfSig pacfSig maxP maxQ d) :=
  List.Pairwise.sublist (List.take_sublist 10 _)
    (identifyArimaOrderFull_orders_nodup acfValues pacfValues acfSig pacfSig
      maxP maxQ d hP hQ)

/-- Witness for C10 at concrete inputs (empty profiles, max_p = max_q = 1,
d = 0). -/
theorem identify_orders_distinct_witness :
    List.Pairwise (fun a b : Candidate => a.order ≠ b.order)
      (identifyArimaOrder [] [] [] [] 1 1 0) :=
  identify_orders_distinct [] [] [] [] 1 1 0 (by decide) (by decide)

/-- Claim C4: for every ACF/PACF profile, every d and max_p, max_q ≥ 1, the
returned candidate list is non-empty, has at most 10 entries, and is sorted
in descending order of confidence; every order of the fixed backstop set
appears in the pre-truncation list, and every pre-truncation candidate that
did not come from a pattern branch carries confidence 0.3. -/
theorem identify_orders_spec (acfValues pacfValues : List ℚ)
    (acfSig pacfSig : List Bool) (maxP maxQ d : ℕ)
    (hP : 1 ≤ maxP) (hQ : 1 ≤ maxQ) :
    identifyArimaOrder acfValues pacfValues acfSig pacfSig maxP maxQ d ≠ [] ∧
    (identifyArimaOrder acfValues pacfValues acfSig pacfSig maxP maxQ d).length ≤ 10 ∧
    List.Sorted confGE (identifyArimaOrder acfValues pacfValues acfSig pacfSig maxP maxQ d) ∧
    (∀ o ∈ commonOrders d,
      ∃ c ∈ identifyArimaOrderFull acfValues pacfValues acfSig pacfSig maxP maxQ d,
        c.order = o) ∧
    (∀ c ∈ identifyArimaOrderFull acfValues pacfValues acfSig pacfSig maxP maxQ d,
      c.confidence = 3 / 10 ∨
        c ∈ branchModels (identifyCutoffPattern acfValues acfSig)
              (identifyCutoffPattern pacfValues pacfSig) maxP maxQ d) := by
  have hmem : ∀ o ∈ commonOrders d,
      ∃ c ∈ identifyArimaOrderFull acfValues pacfValues acfSig pacfSig maxP maxQ d,
        c.order = o := by
    intro o ho
    have h1 : o ∈ ((addBackstop
        (branchModels (identifyCutoffPattern acfValues acfSig)
          (identifyCutoffPattern pacfValues pacfSig) maxP maxQ d)
        (commonOrders d)).map Candidate.order) :=
      addBackstop_mem_of_mem o (commonOrders d) _ ho
    obtain ⟨c, hc, hco⟩ := List.mem_map.mp h1
    refine ⟨c, ?_, hco⟩
    exact ((List.perm_insertionSort confGE _).mem_iff).mpr hc
  refine ⟨?_, List.length_take_le 10 _, ?_, hmem, ?_⟩
  · have h0 : (1, d, 0) ∈ commonOrders d := by simp [commonOrders]
    obtain ⟨c, hc, _⟩ := hmem _ h0
    have hlen : 0 < (identifyArimaOrderFull acfValues pacfValues acfSig pacfSig
        maxP maxQ d).length :=
      List.length_pos.mpr (List.ne_nil_of_mem hc)
    rw [identifyArimaOrder, ← List.length_pos, List.length_take]
    omega
  · exact List.Pairwise.sublist (List.take_sublist 10 _)
      (List.sorted_insertionSort confGE _)
  · intro c hc
    have hc' : c ∈ addBackstop
        (branchModels (identifyCutoffPattern acfValues acfSig)
          (identifyCutoffPattern pacfValues pacfSig) maxP maxQ d)
        (commonOrders d) :=
      ((List.perm_insertionSort confGE _).mem_iff).mp hc
    rcases addBackstop_subset (commonOrders d) _ c hc' with h | h
    · exact Or.inr h
    · exact Or.inl h

/-- Witness for C4 at concrete inputs (empty profiles, max_p = max_q = 1,
d = 0). -/
theorem identify_orders_spec_witness :
    identifyArimaOrder [] [] [] [] 1 1 0 ≠ [] ∧
    (identifyArimaOrder [] [] [] [] 1 1 0).length ≤ 10 ∧
    List.Sorted confGE (identifyArimaOrder [] [] [] [] 1 1 0) ∧
    (∀ o ∈ commonOrders 0,
      ∃ c ∈ identifyArimaOrderFull [] [] [] [] 1 1 0, c.order = o) ∧
    (∀ c ∈ identifyArimaOrderFull [] [] [] [] 1 1 0,
      c.confidence = 3 / 10 ∨
        c ∈ branchModels (identifyCutoffPattern [] [])
              (identifyCutoffPattern [] []) 1 1 0) :=
  identify_orders_spec [] [] [] [] 1 1 0 (by decide) (by decide)

/-! ### estimation/parameter_estimator.py -/

-- outcome of one moment-estimation routine; the numerical contents of the
-- successful AR/MA results are irrelevant to the dispatch logic.
structure MomentsResult where
  success : Bool
  errorMsg : Option String
deriving DecidableEq

def momentsArmaError : String := "ARMA模型的矩估计较为复杂，建议使用最大似然估计"

def momentsInvalidError : String := "无效的模型阶数"

-- `ParameterEstimator.estimate_parameters`, moments branch (lines 317-338).
-- `arMoments`/`maMoments` are oracles for `estimate_ar_moments` /
-- `estimate_ma_moments` applied to the (d-times differenced) data.
def estimateMomentsDispatch (arMoments : ℕ → MomentsResult)
    (maMoments : ℕ → MomentsResult) (p q : ℕ) : MomentsResult :=
  if 0 < p ∧ q = 0 then arMoments p
  else if p = 0 ∧ 0 < q then maMoments q
  else if 0 < p ∧ 0 < q then ⟨false, some momentsArmaError⟩
  else ⟨false, some momentsInvalidError⟩

/-- Claim C6: for any order with p > 0 and q > 0 the moments method returns
`success = false` with the message directing to maximum likelihood estimation
(and cannot raise, being a returned value), and a successful moments result
is possible only for pure AR (q = 0) or pure MA (p = 0) orders. -/
theorem moments_arma_unsupported (arMoments maMoments : ℕ → MomentsResult)
    (p q : ℕ) (hp : 0 < p) (hq : 0 < q) :
    estimateMomentsDispatch arMoments maMoments p q =
      ⟨false, some momentsArmaError⟩ ∧
    (∀ p' q', (estimateMomentsDispatch arMoments maMoments p' q').success = true →
      q' = 0 ∨ p' = 0) := by
  constructor
  · rw [estimateMomentsDispatch, if_neg (by omega), if_neg (by omega),
      if_pos ⟨hp, hq⟩]
  · intro p' q' hs
    rw [estimateMomentsDispatch] at hs
    split_ifs at hs with h1 h2 h3
    · exact Or.inl h1.2
    · exact Or.inr h2.1

/-- Witness for C6 at order (1, d, 1) with trivially succeeding oracles. -/
theorem moments_arma_unsupported_witness :
    estimateMomentsDispatch (fun _ => ⟨true, none⟩) (fun _ => ⟨true, none⟩) 1 1 =
      ⟨false, some momentsArmaError⟩ ∧
    (∀ p' q',
      (estimateMomentsDispatch (fun _ => ⟨true, none⟩) (fun _ => ⟨true, none⟩)
        p' q').success = true → q' = 0 ∨ p' = 0) :=
  moments_arma_unsupported (fun _ => ⟨true, none⟩) (fun _ => ⟨true, none⟩) 1 1
    (by decide) (by decide)

/-! ### api.py: analyze steps 4-5, get_best_model and predict -/

-- per-candidate outcome of `generate_evaluation_report` plus whether the MLE
-- estimation kept a fitted-model handle (`'fitted_model' in estimation['mle']`).
structure EvalOutcome where
  success : Bool
  aic : ℚ
  mleHasFittedModel : Bool

structure EvaluatedModel where
  order : ModelOrder
  aic : ℚ
  hasFittedModel : Bool
deriving DecidableEq

-- the `for model_info in recommended_models[:n_models]` loop: only candidates
-- whose evaluation reports success are retained.
def evaluateCandidates (report : ModelOrder → EvalOutcome)
    (cands : List Candidate) (nModels : ℕ) : List EvaluatedModel :=
  (cands.take nModels).filterMap fun c =>
    let ev := report c.order
    if ev.success then some ⟨c.order, ev.aic, ev.mleHasFittedModel⟩ else none

-- Python's `min(..., key=...)`: fold keeping the current minimum, replacing
-- only on a strictly smaller key, so the first minimal element wins.
def foldlMin {α : Type} (f : α → ℚ) (b : α) (xs : List α) : α :=
  xs.foldl (fun c a => if f a < f c then a else c) b

-- `if evaluated_models: best = min(evaluated_models, key=aic)` (lines 141-146).
def selectBestModel (models : List EvaluatedModel) : Option EvaluatedModel :=
  match models with
  | [] => none
  | x :: xs => some (foldlMin (fun m => m.aic) x xs)

-- the (model_evaluation, best_model) pair produced by `analyze`;
-- `get_best_model` returns the second component.
def analyzeEvaluation (report : ModelOrder → EvalOutcome)
    (cands : List Candidate) (nModels : ℕ) :
    List EvaluatedModel × Option EvaluatedModel :=
  let evaluated := evaluateCandidates report cands nModels
  (evaluated, selectBestModel evaluated)

-- `TimeSeriesInsight.predict` control flow (lines 185-243): ValueError when
-- no best model exists or its MLE kept no fitted model; the forecast itself
-- (a statsmodels call) is abstracted to the returned order.
def predict (best : Option EvaluatedModel) : Except String ModelOrder :=
  match best with
  | none => Except.error ("没有可用的模型，请先执行分析")
  | some m =>
    if m.hasFittedModel then Except.ok m.order
    else Except.error ("最佳模型没有拟合结果")

/-! ### first-minimum specification of Python's `min` fold (C5) -/

lemma head_le_of_decomp {α : Type} (f : α → ℚ) :
    ∀ (l₁ : List α) (b r : α) (xs l₂ : List α),
      b :: xs = l₁ ++ r :: l₂ → (∀ x ∈ l₁, f r < f x) → f r ≤ f b := by
  intro l₁
  cases l₁ with
  | nil =>
    intro b r xs l₂ h _
    simp only [List.nil_append] at h
    have hb : b = r := by injection h
    rw [hb]
  | cons a t =>
    intro b r xs l₂ h hs
    simp only [List.cons_append] at h
    have hab : b = a := by injection h
    rw [hab]
    exact le_of_lt (hs a (by simp))

lemma foldlMin_spec {α : Type} (f : α → ℚ) :
    ∀ (xs : List α) (b : α),
      ∃ l₁ l₂, b :: xs = l₁ ++ foldlMin f b xs :: l₂ ∧
        (∀ x ∈ l₁, f (foldlMin f b xs) < f x) ∧
        (∀ x ∈ l₂, f (foldlMin f b xs) ≤ f x) := by
  intro xs
  induction xs with
  | nil =>
    intro b
    exact ⟨[], [], rfl, by simp, by simp⟩
  | cons y ys ih =>
    intro b
    have hfold : foldlMin f b (y :: ys) = foldlMin f (if f y < f b then y else b) ys :=
      rfl
    by_cases h : f y < f b
    · rw [hfold, if_pos h]
      obtain ⟨l₁, l₂, hdec, hs, hle⟩ := ih y
      refine ⟨b :: l₁, l₂, ?_, ?_, hle⟩
      · rw [List.cons_append, ← hdec]
      · intro x hx
        rcases List.mem_cons.mp hx with hx' | hx'
        · have h1 : f (foldlMin f y ys) ≤ f y :=
            head_le_of_decomp f l₁ y (foldlMin f y ys) ys l₂ hdec hs
          exact hx' ▸ lt_of_le_of_lt h1 h
        · exact hs x hx'
    · rw [hfold, if_neg h]
      obtain ⟨l₁, l₂, hdec, hs, hle⟩ := ih b
      cases l₁ with
      | nil =>
        simp only [List.nil_append] at hdec
        have hb : b = foldlMin f b ys := by injection hdec
        have hys : ys = l₂ := by injection hdec
        refine ⟨[], y :: ys, ?_, by simp, ?_⟩
        · simp only [List.nil_append]
          rw [← hb]
        · intro x hx
          rcases List.mem_cons.mp hx with hx' | hx'
          · rw [hx', ← hb]
            exact le_of_not_lt h
          · exact hle x (hys ▸ hx')
      | cons a t =>
        simp only [List.cons_append] at hdec
        have hab : b = a := by injection hdec
        have hys : ys = t ++ foldlMin f b ys :: l₂ := by injection hdec
        have hrb : f (foldlMin f b ys) < f b := by
          have := hs a (by simp)
          rw [← hab] at this
          exact this
        refine ⟨b :: y :: t, l₂, ?_, ?_, hle⟩
        · rw [List.cons_append, List.cons_append, ← hys]
        · intro x hx
          rcases List.mem_cons.mp hx with hx' | hx'
          · exact hx' ▸ hrb
          rcases List.mem_cons.mp hx' with hx'' | hx''
          · exact hx'' ▸ lt_of_lt_of_le hrb (le_of_not_lt h)
          · exact hs x (by simp [hx''])

/-- Claim C5: when at least one candidate was successfully evaluated, the
selected best model is the first element of the evaluated list attaining the
minimal AIC: every earlier element has strictly larger AIC (so ties are
broken in favour of the first-encountered candidate) and every later element
has AIC at least as large. -/
theorem best_model_first_min (models : List EvaluatedModel) (h : models ≠ []) :
    ∃ m l₁ l₂, selectBestModel models = some m ∧ models = l₁ ++ m :: l₂ ∧
      (∀ x ∈ l₁, m.aic < x.aic) ∧ (∀ x ∈ l₂, m.aic ≤ x.aic) := by
  match models, h with
  | x :: xs, _ =>
    obtain ⟨l₁, l₂, hdec, hs, hle⟩ := foldlMin_spec (fun m => m.aic) xs x
    exact ⟨foldlMin (fun m => m.aic) x xs, l₁, l₂, rfl, hdec, hs, hle⟩

/-- Witness for C5 on a concrete two-candidate list where the second model
has the smaller AIC. -/
theorem best_model_first_min_witness :
    ∃ m l₁ l₂,
      selectBestModel [⟨(2, 0, 0), 5, true⟩, ⟨(1, 0, 1), 3, false⟩] = some m ∧
      ([⟨(2, 0, 0), 5, true⟩, ⟨(1, 0, 1), 3, false⟩] : List EvaluatedModel) =
        l₁ ++ m :: l₂ ∧
      (∀ x ∈ l₁, m.aic < x.aic) ∧ (∀ x ∈ l₂, m.aic ≤ x.aic) :=
  best_model_first_min [⟨(2, 0, 0), 5, true⟩, ⟨(1, 0, 1), 3, false⟩] (by simp)

/-! ### the zero-successful-candidates path (C8) -/

lemma evaluateCandidates_eq_nil (report : ModelOrder → EvalOutcome)
    (cands : List Candidate) (nModels : ℕ)
    (h : ∀ c ∈ cands.take nModels, (report c.order).success = false) :
    evaluateCandidates report cands nModels = [] := by
  rw [evaluateCandidates]
  have hgen : ∀ l : List Candidate, (∀ c ∈ l, (report c.order).success = false) →
      (l.filterMap fun c =>
        let ev := report c.order
        if ev.success then some ⟨c.order, ev.aic, ev.mleHasFittedModel⟩ else none)
        = ([] : List EvaluatedModel) := by
    intro l
    induction l with
    | nil => intro _; rfl
    | cons c cs ih =>
      intro hl
      rw [List.filterMap_cons]
      have hc : (report c.order).success = false := hl c (by simp)
      simp only [hc]
      exact ih (fun c' hc' => hl c' (by simp [hc']))
  exact hgen _ h

/-- Claim C8: when none of the top n_models candidates evaluates
successfully, `analyze` completes with an empty model_evaluation list and no
best model (`get_best_model()` is None), and a subsequent `predict` call
fails with a ValueError-class error instead of producing a forecast. -/
theorem analyze_no_success (report : ModelOrder → EvalOutcome)
    (cands : List Candidate) (nModels : ℕ)
    (h : ∀ c ∈ cands.take nModels, (report c.order).success = false) :
    (analyzeEvaluation report cands nModels).1 = [] ∧
    (analyzeEvaluation report cands nModels).2 = none ∧
    ∃ msg, predict (analyzeEvaluation report cands nModels).2 =
      Except.error msg := by
  have he : evaluateCandidates report cands nModels = [] :=
    evaluateCandidates_eq_nil report cands nModels h
  have h2 : (analyzeEvaluation report cands nModels).2 = none := by
    show selectBestModel (evaluateCandidates report cands nModels) = none
    rw [he]
    rfl
  refine ⟨he, h2, ?_⟩
  rw [h2]
  exact ⟨_, rfl⟩

/-- Witness for C8 with an always-failing evaluation oracle over one
candidate. -/
theorem analyze_no_success_witness :
    (analyzeEvaluation (fun _ => ⟨false, 0, false⟩) [backstopCandidate (1, 0, 0)] 1).1
      = [] ∧
    (analyzeEvaluation (fun _ => ⟨false, 0, false⟩) [backstopCandidate (1, 0, 0)] 1).2
      = none ∧
    ∃ msg,
      predict
        (analyzeEvaluation (fun _ => ⟨false, 0, false⟩)
          [backstopCandidate (1, 0, 0)] 1).2 = Except.error msg :=
  analyze_no_success (fun _ => ⟨false, 0, false⟩) [backstopCandidate (1, 0, 0)] 1
    (fun _ _ => rfl)

/-! ### evaluation/model_evaluator.py: `_assess_residuals` -/

structure ResidualStats where
  mean : ℚ
  std : ℚ
  skewness : ℚ
  kurtosis : ℚ

-- the additive penalty score (lines 267-322); `jbIsNormal` / `lbIsWhiteNoise`
-- are the Jarque-Bera and Ljung-Box verdicts (defaulting to true when the
-- test errored, per `.get(..., True)`).
def assessScore (stats : ResidualStats) (jbIsNormal lbIsWhiteNoise : Bool) : ℤ :=
  ((((100 : ℤ)
    - (if |stats.mean| > (1 / 10 : ℚ) * stats.std then 10 else 0))
    - (if jbIsNormal = false then 15 else 0))
    - (if lbIsWhiteNoise = false then 20 else 0)
    - (if |stats.skewness| > 1 then 10 else 0))
    - (if |stats.kurtosis| > 3 then 10 else 0)

def assessGrade (score : ℤ) : String :=
  if 90 ≤ score then ("优秀")
  else if 75 ≤ score then ("良好")
  else if 60 ≤ score then ("一般")
  else ("较差")

lemma assessGrade_poor_iff (s : ℤ) : assessGrade s = "较差" ↔ s < 60 := by
  rw [assessGrade]
  split_ifs with h1 h2 h3
  · exact iff_of_false (by decide) (by omega)
  · exact iff_of_false (by decide) (by omega)
  · exact iff_of_false (by decide) (by omega)
  · exact iff_of_true rfl (by omega)

/-- Claim C9: the residual adequacy score always lies in [35, 100] — the five
deductions sum to at most 65 from the base 100 — and consequently the 较差
(poor) grade only ever covers scores in [35, 60). -/
theorem residual_score_range (stats : ResidualStats) (jb lb : Bool) :
    35 ≤ assessScore stats jb lb ∧ assessScore stats jb lb ≤ 100 ∧
    (assessGrade (assessScore stats jb lb) = "较差" →
      35 ≤ assessScore stats jb lb ∧ assessScore stats jb lb < 60) := by
  have hbounds : 35 ≤ assessScore stats jb lb ∧ assessScore stats jb lb ≤ 100 := by
    rw [assessScore]
    split_ifs <;> omega
  refine ⟨hbounds.1, hbounds.2, fun hpoor => ⟨hbounds.1, ?_⟩⟩
  exact (assessGrade_poor_iff _).mp hpoor

/-- Witness for C9: residuals failing every diagnostic land exactly on the
minimum score 35 with grade 较差. -/
theorem residual_score_range_witness :
    35 ≤ assessScore ⟨1, 1, 2, 4⟩ false false ∧
    assessScore ⟨1, 1, 2, 4⟩ false false < 60 :=
  (residual_score_range ⟨1, 1, 2, 4⟩ false false).2.2 (by
    have hs : assessScore ⟨1, 1, 2, 4⟩ false false = 35 := by
      rw [assessScore]
      norm_num
    rw [hs]
    rfl)

end TimeSeriesInsight
